/-
Verification of the rofl-price-oracle aggregation core.

Shallow embedding conventions:
* Python `float` values (prices, rates, seconds) are modelled as exact
  rationals `ℚ`.  Every claim settled here is a branch/threshold or
  bookkeeping property whose truth value does not depend on rounding of
  the underlying IEEE arithmetic.
* Python `str` values that undergo case conversion or splitting
  (`AggregatedPair`, binance symbol keys) are modelled as lists of
  Unicode code points (`List ℕ`), matching Python's view of a string as
  a sequence of code points.  Source names that are only compared for
  equality are modelled as Lean `String`.
* Python `dict`s are modelled as insertion-ordered association lists;
  `alookup` is `dict.get`.
* A raised `ValueError` is modelled as `none` / a `none`-valued
  constructor result.
* I/O (HTTP fetches, the signing daemon, wall-clock reads) is abstracted
  by passing the fetched values / the current time as arguments.
-/
import Mathlib

/-! ## Python strings as code-point lists -/

/-- A Python string, seen as its sequence of Unicode code points. -/
abbrev Cp := List ℕ

/-- Code points of a Lean string literal (used to embed Python string
literals). -/
def cp (s : String) : Cp := s.toList.map Char.toNat

/-- `str.lower` on a single ASCII code point (Python's `str.lower`
restricted to the ASCII letters, which is all the oracle uses). -/
def lowerCp (c : ℕ) : ℕ := if 65 ≤ c ∧ c ≤ 90 then c + 32 else c

/-- `str.lower` on a whole string. -/
def lowerStr (s : Cp) : Cp := s.map lowerCp

/-- The code point of `'/'`. -/
def slash : ℕ := 47

/-- Python `s.split("/")`: split a string at every slash.  `""` splits
to `[""]` and `"/"` splits to `["", ""]`, as in Python. -/
def splitSlash : Cp → List Cp
  | [] => [[]]
  | c :: cs =>
    match splitSlash cs with
    | [] => [[]]
    | p :: ps => if c = slash then [] :: p :: ps else (c :: p) :: ps

/-- `"/".join`, the left inverse of `splitSlash`. -/
def joinSlash : List Cp → Cp
  | [] => []
  | [p] => p
  | p :: ps => p ++ slash :: joinSlash ps

/-- Python `dict.get` over an insertion-ordered association list. -/
def alookup {α β : Type _} [DecidableEq α] : List (α × β) → α → Option β
  | [], _ => none
  | kv :: rest, k => if kv.1 = k then some kv.2 else alookup rest k

/-- Replace the value at a key, or append the binding if the key is
absent (models `d[k] = v` on a Python dict). -/
def aset {α β : Type _} [DecidableEq α] : List (α × β) → α → β → List (α × β)
  | [], k, v => [(k, v)]
  | kv :: rest, k, v => if kv.1 = k then (k, v) :: rest else kv :: aset rest k v

/-! ## AggregatedPair (src/AggregatedPair.py) -/

/-- `AggregatedPair`: a trading pair for aggregated price feeds
(`AggregatedPair.py` lines 25-57). -/
structure AggregatedPair where
  pair_base : Cp
  pair_quote : Cp
deriving DecidableEq, Repr

/-- `AggregatedPair.__init__` (lines 32-39): both symbols are
lowercased. -/
def AggregatedPair.make (pair_base pair_quote : Cp) : AggregatedPair :=
  ⟨lowerStr pair_base, lowerStr pair_quote⟩

/-- `AggregatedPair.__str__` (lines 41-43): the canonical form
`"aggregated/<base>/<quote>"`. -/
def AggregatedPair.toStr (p : AggregatedPair) : Cp :=
  cp "aggregated/" ++ p.pair_base ++ slash :: p.pair_quote

/-- `AggregatedPair.from_string` (lines 79-100): lowercase, split on
`"/"`, demand exactly two parts, else raise `ValueError` (modelled as
`none`). -/
def AggregatedPair.from_string (pair_str : Cp) : Option AggregatedPair :=
  match splitSlash (lowerStr pair_str) with
  | [a, b] => some (AggregatedPair.make a b)
  | _ => none

/-! ## statistics.median and Python sorted -/

/-- Python `sorted` on rationals.  `List.insertionSort` is a stable
sort, hence produces exactly the output of Python's (stable) sort for
the same total preorder. -/
def pySorted (xs : List ℚ) : List ℚ := List.insertionSort (· ≤ ·) xs

/-- `statistics.median`: middle element of the sorted data for odd
length, mean of the two middle elements for even length.  (Python
raises on an empty list; the callers below never pass one when
`min_sources ≥ 1`, and the default `0` is never read in those uses.) -/
def median (xs : List ℚ) : ℚ :=
  let s := pySorted xs
  let n := s.length
  if n % 2 = 1 then s.getD (n / 2) 0
  else (s.getD (n / 2 - 1) 0 + s.getD (n / 2) 0) / 2

/-! ## PriceAggregator (src/PriceAggregator.py) -/

/-- Result of `PriceAggregator.aggregate`: the `AggregationResult`
dataclass with its `metadata` dictionaries flattened into one tagged
union (`price=None` plus `metadata["error"]` become the three error
constructors). -/
inductive AggResult where
  | ok (price : ℚ) (sources : List String) (dropped : List (String × ℚ))
      (count : ℕ) (initial_median : ℚ)
  | insufficientSources (available : ℕ)
  | tooManyOutliers (dropped : List (String × ℚ))
  | driftTooLarge (drift_percent previous_price candidate_price : ℚ)
deriving DecidableEq, Repr

/-- `AggregationResult.success` (lines 76-79). -/
def AggResult.success : AggResult → Bool
  | .ok _ _ _ _ _ => true
  | _ => false

/-- The `dropped` metadata entry of a result (`{}` when absent). -/
def AggResult.droppedMeta : AggResult → List (String × ℚ)
  | .ok _ _ d _ _ => d
  | .tooManyOutliers d => d
  | _ => []

/-- `PriceAggregator` configuration state (lines 133-135). -/
structure PriceAggregator where
  min_sources : ℤ
  max_deviation_percent : ℚ
  drift_limit_percent : Option ℚ
deriving DecidableEq, Repr

/-- `PriceAggregator.__init__` (lines 111-135): parameter validation;
a raised `ValueError` is modelled as `none`. -/
def PriceAggregator.init (min_sources : ℤ) (max_deviation_percent : ℚ)
    (drift_limit_percent : Option ℚ) : Option PriceAggregator :=
  if min_sources < 1 then none
  else if max_deviation_percent ≤ 0 then none
  else
    match drift_limit_percent with
    | some d =>
      if d ≤ 0 then none
      else some ⟨min_sources, max_deviation_percent, some d⟩
    | none => some ⟨min_sources, max_deviation_percent, none⟩

/-- Step 1 of `aggregate` (lines 160-162): keep entries whose price is
not `None` and strictly positive. -/
def validOf (prices : List (String × Option ℚ)) : List (String × ℚ) :=
  prices.filterMap fun kv =>
    match kv.2 with
    | some v => if 0 < v then some (kv.1, v) else none
    | none => none

/-- Percentage deviation of `price` from `m` (line 181). -/
def deviationPct (m price : ℚ) : ℚ := |price - m| / m * 100

/-- Step 2 of `aggregate` (line 174): the initial median over all valid
prices. -/
def initialMedianOf (prices : List (String × Option ℚ)) : ℚ :=
  median ((validOf prices).map Prod.snd)

/-- Step 3 of `aggregate` (lines 180-185), kept part: sources whose
deviation from the initial median is at most `max_deviation_percent`
(inclusive). -/
def filteredOf (maxDev : ℚ) (prices : List (String × Option ℚ)) :
    List (String × ℚ) :=
  (validOf prices).filter fun kv =>
    decide (deviationPct (initialMedianOf prices) kv.2 ≤ maxDev)

/-- Step 3 of `aggregate` (lines 180-185), dropped part: sources whose
deviation is strictly greater than `max_deviation_percent`. -/
def outliersOf (maxDev : ℚ) (prices : List (String × Option ℚ)) :
    List (String × ℚ) :=
  (validOf prices).filter fun kv =>
    !decide (deviationPct (initialMedianOf prices) kv.2 ≤ maxDev)

/-- Step 4 of `aggregate` (line 197): the final median over the
filtered set. -/
def finalMedianOf (maxDev : ℚ) (prices : List (String × Option ℚ)) : ℚ :=
  median ((filteredOf maxDev prices).map Prod.snd)

/-- `PriceAggregator.aggregate` (lines 137-221). -/
def PriceAggregator.aggregate (agg : PriceAggregator)
    (prices : List (String × Option ℚ)) (previous_price : Option ℚ) :
    AggResult :=
  let valid := validOf prices
  if (valid.length : ℤ) < agg.min_sources then
    .insufficientSources valid.length
  else
    let filtered := filteredOf agg.max_deviation_percent prices
    let dropped := outliersOf agg.max_deviation_percent prices
    if (filtered.length : ℤ) < agg.min_sources then
      .tooManyOutliers dropped
    else
      let final_median := finalMedianOf agg.max_deviation_percent prices
      match previous_price, agg.drift_limit_percent with
      | some prev, some dlim =>
        let drift := |final_median - prev| / prev * 100
        if dlim < drift then .driftTooLarge drift prev final_median
        else
          .ok final_median (filtered.map Prod.fst) dropped filtered.length
            (initialMedianOf prices)
      | _, _ =>
        .ok final_median (filtered.map Prod.fst) dropped filtered.length
          (initialMedianOf prices)

/-! ## SourceManager (src/SourceManager.py) -/

/-- `SourceStatus` dataclass (lines 29-42). -/
structure SourceStatus where
  consecutive_failures : ℕ
  backoff_until : ℚ
  total_failures : ℕ
  total_successes : ℕ
deriving DecidableEq, Repr

/-- The all-zero initial `SourceStatus`. -/
def SourceStatus.fresh : SourceStatus := ⟨0, 0, 0, 0⟩

/-- `SourceManager` state (lines 45-85). -/
structure SourceManager where
  sources : List String
  base_backoff_seconds : ℚ
  max_backoff_seconds : ℚ
  statuses : List (String × SourceStatus)
deriving DecidableEq, Repr

/-- `SourceManager.__init__` (lines 70-85): every listed source starts
with a fresh status. -/
def SourceManager.init (sources : List String)
    (base_backoff_seconds max_backoff_seconds : ℚ) : SourceManager :=
  ⟨sources, base_backoff_seconds, max_backoff_seconds,
    sources.map fun s => (s, SourceStatus.fresh)⟩

/-- The status of a source, inserting a fresh one if the source is
unknown (the `if source not in self._status` guard of lines 101-102 and
122-123). -/
def SourceManager.statusOf (m : SourceManager) (source : String) :
    SourceStatus :=
  (alookup m.statuses source).getD SourceStatus.fresh

/-- `SourceManager.record_failure` (lines 87-115): bump the failure
counters, schedule `min(base * 2^(failures-1), max)` seconds of backoff
from `now`, and return the backoff. -/
def SourceManager.record_failure (m : SourceManager) (source : String)
    (now : ℚ) : ℚ × SourceManager :=
  let st := m.statusOf source
  let cf := st.consecutive_failures + 1
  let backoff :=
    min (m.base_backoff_seconds * 2 ^ (cf - 1)) m.max_backoff_seconds
  (backoff,
    { m with
      statuses := aset m.statuses source
        ⟨cf, now + backoff, st.total_failures + 1, st.total_successes⟩ })

/-- `SourceManager.record_success` (lines 117-128): reset the failure
counter and the backoff. -/
def SourceManager.record_success (m : SourceManager) (source : String) :
    SourceManager :=
  let st := m.statusOf source
  { m with
    statuses := aset m.statuses source
      ⟨0, 0, st.total_failures, st.total_successes + 1⟩ }

/-- The values returned by `k` consecutive `record_failure` calls for
one source with no intervening `record_success`. -/
def SourceManager.failSeq (m : SourceManager) (source : String) (now : ℚ) :
    ℕ → List ℚ
  | 0 => []
  | k + 1 =>
    let r := m.record_failure source now
    r.1 :: r.2.failSeq source now k

/-! ## PairObserver (src/PairObserver.py) -/

/-- Python `int()` applied to a number: truncation toward zero. -/
def pyInt (q : ℚ) : ℤ := q.num.tdiv q.den

/-- Modelled from the spec: the spec's `round` in
`scaled_price = round(price × 10^decimals)` — rounding to the nearest
integer (as opposed to truncation).  This definition follows the
spec's words, not the source (`PairObserver.py` line 191 uses `int`),
and exists to compare the two. -/
def specRound (q : ℚ) : ℤ := round q

/-- The argument tuple handed to
`contract.functions.submitObservation(...)` (lines 225-230). -/
structure SubmitCall where
  roundId : ℤ
  answer : ℤ
  startedAt : ℤ
  updatedAt : ℤ
deriving DecidableEq, Repr

/-- Python tuple comparison on observations: lexicographic order on
`(price_scaled, timestamp)`. -/
def obsLe (a b : ℤ × ℤ) : Prop := a.1 < b.1 ∨ (a.1 = b.1 ∧ a.2 ≤ b.2)

instance : DecidableRel obsLe := fun a b => by
  unfold obsLe; infer_instance

instance : IsTotal (ℤ × ℤ) obsLe :=
  ⟨fun a b => by
    rcases lt_trichotomy a.1 b.1 with h | h | h
    · exact Or.inl (Or.inl h)
    · rcases le_total a.2 b.2 with h2 | h2
      · exact Or.inl (Or.inr ⟨h, h2⟩)
      · exact Or.inr (Or.inr ⟨h.symm, h2⟩)
    · exact Or.inr (Or.inl h)⟩

instance : IsTrans (ℤ × ℤ) obsLe :=
  ⟨fun a b c hab hbc => by
    rcases hab with h1 | ⟨e1, l1⟩
    · rcases hbc with h2 | ⟨e2, _⟩
      · exact Or.inl (h1.trans h2)
      · exact Or.inl (e2 ▸ h1)
    · rcases hbc with h2 | ⟨e2, l2⟩
      · exact Or.inl (e1 ▸ h2)
      · exact Or.inr ⟨e1.trans e2, l1.trans l2⟩⟩

/-- `PairObserver` state (lines 43-105).  `contract`, `rofl_utility`,
`fetchers` and `gas_price_fn` are external I/O handles and are not part
of the observed state; `usdt_cache` models the process-wide
`UsdtRateCache` singleton as `(rate, set_at)`. -/
structure PairObserver where
  pair : AggregatedPair
  sources : List String
  submit_period : ℚ
  aggregator : PriceAggregator
  source_manager : SourceManager
  observations : List (ℤ × ℤ)
  last_submit : ℚ
  last_good_median : Option ℚ
  decimals : ℕ
  round_id : ℤ
  usdt_cache : Option (ℚ × ℚ)
deriving DecidableEq, Repr

/-- The source-manager update loop of `receive_prices`
(lines 126-138): record a failure for `None` prices, a success
otherwise, ignoring sources the observer does not own; collect the
non-`None` prices in order. -/
def PairObserver.updateSources (ob : PairObserver)
    (prices : List (String × Option ℚ)) (now : ℚ) :
    SourceManager × List (String × Option ℚ) :=
  prices.foldl
    (fun acc sp =>
      if sp.1 ∈ ob.sources then
        match sp.2 with
        | none => ((acc.1.record_failure sp.1 now).2, acc.2)
        | some p => (acc.1.record_success sp.1, acc.2 ++ [(sp.1, some p)])
      else acc)
    (ob.source_manager, [])

/-- `PairObserver.receive_prices` (lines 114-195).  `now` is the
wall-clock time `time.time()`; the appended observation timestamp is
`int(time.time())`.  Returns the updated observer and the Python
return value `(success, aggregated_price)`. -/
def PairObserver.receive_prices (ob : PairObserver)
    (prices : List (String × Option ℚ)) (now : ℚ) :
    PairObserver × Bool × Option ℚ :=
  let su := ob.updateSources prices now
  match ob.aggregator.aggregate su.2 ob.last_good_median with
  | .ok price _ _ _ _ =>
    ({ ob with
        source_manager := su.1
        last_good_median := some price
        usdt_cache :=
          if ob.pair.pair_base = cp "usdt" ∧ ob.pair.pair_quote = cp "usd"
          then some (price, now) else ob.usdt_cache
        observations :=
          ob.observations ++ [(pyInt (price * 10 ^ ob.decimals), pyInt now)] },
      true, some price)
  | _ => ({ ob with source_manager := su.1 }, false, none)

/-- `PairObserver.should_submit` (lines 197-205). -/
def PairObserver.should_submit (ob : PairObserver) (now : ℚ) : Bool :=
  decide (0 < ob.observations.length) &&
    decide (ob.submit_period < now - ob.last_submit)

/-- `PairObserver.submit` (lines 207-244): `none` models the
`return False` on an empty buffer; otherwise the submitted call and the
reset state are returned (the external `submit_tx` is opaque and
assumed not to raise, which is the successful case the claims are
about). -/
def PairObserver.submit (ob : PairObserver) (now : ℚ) :
    Option (SubmitCall × PairObserver) :=
  match ob.observations with
  | [] => none
  | _ :: _ =>
    let round_id := ob.round_id + 1
    let sorted_obs := List.insertionSort obsLe ob.observations
    let final_price := (sorted_obs.getD (ob.observations.length / 2) (0, 0)).1
    some
      (⟨round_id, final_price, (ob.observations.headD (0, 0)).2,
          (ob.observations.getLastD (0, 0)).2⟩,
        { ob with
          round_id := round_id
          last_submit := now
          observations := [] })

/-! ## BinanceFetcher (src/fetchers/binance.py) -/

/-- `BinanceFetcher._is_depeg` (lines 123-129) with
`USDT_DEPEG_THRESHOLD = 0.02`. -/
def is_depeg (rate : ℚ) : Bool := decide (1/50 < |rate - 1|)

/-- `BinanceFetcher.fetch` (lines 84-121), with the two HTTP reads
abstracted: `pair_info` is the `_pair_info` cache
(`(base, quote) → (symbol, needs_usdt_conversion)`), and `price_map`
is what `_fetch_symbols` / `_fetch_symbol` returns for each symbol this
tick. -/
def binanceFetch (pair_info : List ((Cp × Cp) × Cp × Bool))
    (price_map : List (Cp × Option ℚ)) (base quote : Cp) : Option ℚ :=
  match alookup pair_info (lowerStr base, lowerStr quote) with
  | none => none
  | some (symbol, needs_conversion) =>
    if needs_conversion then
      match (alookup price_map symbol).getD none,
          (alookup price_map (cp "USDTUSD")).getD none with
      | some usdt_price, some usdt_rate =>
        if is_depeg usdt_rate then none else some (usdt_price * usdt_rate)
      | _, _ => none
    else (alookup price_map symbol).getD none

/-- The effective USDT→USD rate used by `fetch_batch` (lines 218-226):
the fetched `"USDTUSD"` rate, nulled out once for the whole batch when
it is depegged. -/
def batchUsdtRate (price_map : List (Cp × Option ℚ)) : Option ℚ :=
  match (alookup price_map (cp "USDTUSD")).getD none with
  | some r => if is_depeg r then none else some r
  | none => none

/-- The per-pair result of `BinanceFetcher.fetch_batch`
(lines 229-249). -/
def binanceBatchValue (pair_info : List ((Cp × Cp) × Cp × Bool))
    (price_map : List (Cp × Option ℚ)) (bq : Cp × Cp) : Option ℚ :=
  match alookup pair_info (lowerStr bq.1, lowerStr bq.2) with
  | none => none
  | some (symbol, needs_conversion) =>
    match (alookup price_map symbol).getD none with
    | none => none
    | some price =>
      if needs_conversion then
        match batchUsdtRate price_map with
        | none => none
        | some r => some (price * r)
      else some price

/-- `BinanceFetcher.fetch_batch` (lines 180-251) as the list of
per-pair results over the requested pairs. -/
def binanceFetchBatch (pair_info : List ((Cp × Cp) × Cp × Bool))
    (price_map : List (Cp × Option ℚ)) (pairs : List (Cp × Cp)) :
    List ((Cp × Cp) × Option ℚ) :=
  pairs.map fun bq => (bq, binanceBatchValue pair_info price_map bq)

example : validOf [("a", some 100), ("b", none), ("c", some 0)] = [("a", 100)] := by
  decide
example : PriceAggregator.aggregate ⟨2, 5, none⟩
    [("a", some 100), ("b", some 101), ("rogue", some 200)] none =
    .ok (201/2) ["a", "b"] [("rogue", 200)] 2 101 := by
  norm_num [PriceAggregator.aggregate, validOf, filteredOf, outliersOf,
    finalMedianOf, initialMedianOf, median, pySorted, deviationPct,
    List.insertionSort, List.orderedInsert, List.filterMap_cons]

/-! ## Concrete example data (used by the witnesses below) -/

/-- A baseline observer: pair `rose/usd`, two sources, `decimals = 1`,
`round_id = 7`, defaults otherwise. -/
def obBase : PairObserver :=
  { pair := AggregatedPair.make (cp "rose") (cp "usd")
    sources := ["a", "b"]
    submit_period := 300
    aggregator := ⟨2, 5, some 10⟩
    source_manager := SourceManager.init ["a", "b"] 5 300
    observations := []
    last_submit := 0
    last_good_median := none
    decimals := 1
    round_id := 7
    usdt_cache := none }

/-- Two prices `1.76` and `1.78`; their median `1.77` scales to the
non-integer `17.7` at `decimals = 1`. -/
def pricesEx : List (String × Option ℚ) := [("a", some (44/25)), ("b", some (89/50))]

/-- The observer state after `obBase` receives `pricesEx` at time 5. -/
def obBaseAfter : PairObserver :=
  { obBase with
    source_manager :=
      (obBase.source_manager.record_success "a").record_success "b"
    last_good_median := some (177/100)
    observations := [(17, 5)] }

/-- `_pair_info` for a binance instance that routes `rose/usd` through
`ROSEUSDT`. -/
def pairInfoEx : List ((Cp × Cp) × Cp × Bool) :=
  [((cp "rose", cp "usd"), (cp "ROSEUSDT", true))]

/-- A fetched symbol map with a depegged USDT→USD factor of `1.03`. -/
def priceMapEx : List (Cp × Option ℚ) :=
  [(cp "ROSEUSDT", some (3/100)), (cp "USDTUSD", some (103/100))]

/-! ## Helper lemmas -/

theorem alookup_aset {α β : Type _} [DecidableEq α] (l : List (α × β))
    (k : α) (v : β) : alookup (aset l k v) k = some v := by
  induction l with
  | nil => simp [aset, alookup]
  | cons kv rest ih =>
    by_cases h : kv.1 = k
    · simp [aset, h, alookup]
    · simp [aset, alookup, h, ih]

theorem mem_keys_val_unique {α β : Type _} {l : List (α × β)} {a : α}
    {b c : β} (hnd : (l.map Prod.fst).Nodup) (hb : (a, b) ∈ l)
    (hc : (a, c) ∈ l) : b = c := by
  induction l with
  | nil => cases hb
  | cons kv rest ih =>
    rcases List.mem_cons.mp hb with hb1 | hb1 <;>
      rcases List.mem_cons.mp hc with hc1 | hc1
    · rw [← hb1] at hc1; exact (Prod.mk.injEq _ _ _ _).mp hc1.symm |>.2
    · exfalso
      exact (List.nodup_cons.mp hnd).1
        (hb1 ▸ (List.mem_map.mpr ⟨(a, c), hc1, rfl⟩))
    · exfalso
      exact (List.nodup_cons.mp hnd).1
        (hc1 ▸ (List.mem_map.mpr ⟨(a, b), hb1, rfl⟩))
    · exact ih (List.nodup_cons.mp hnd).2 hb1 hc1

theorem mem_validOf {prices : List (String × Option ℚ)} {s : String}
    {p : ℚ} : (s, p) ∈ validOf prices ↔ (s, some p) ∈ prices ∧ 0 < p := by
  unfold validOf
  rw [List.mem_filterMap]
  constructor
  · rintro ⟨⟨k, vo⟩, hmem, hf⟩
    rcases vo with _ | v
    · simp at hf
    · dsimp only at hf
      by_cases hv : 0 < v
      · rw [if_pos hv] at hf
        obtain ⟨rfl, rfl⟩ := (Prod.mk.injEq _ _ _ _).mp (Option.some.inj hf)
        exact ⟨hmem, hv⟩
      · rw [if_neg hv] at hf; cases hf
  · rintro ⟨hmem, hp⟩
    exact ⟨(s, some p), hmem, by simp [hp]⟩

theorem keys_validOf_sublist (prices : List (String × Option ℚ)) :
    ((validOf prices).map Prod.fst).Sublist (prices.map Prod.fst) := by
  induction prices with
  | nil => simp [validOf]
  | cons kv rest ih =>
    rcases kv with ⟨k, _ | v⟩
    · simpa [validOf, List.filterMap_cons] using ih.cons k
    · by_cases hv : 0 < v
      · simpa [validOf, List.filterMap_cons, hv] using ih.cons₂ k
      · simpa [validOf, List.filterMap_cons, hv] using ih.cons k

theorem getD_map_fst (l : List (ℤ × ℤ)) (n : ℕ) :
    (l.map Prod.fst).getD n 0 = (l.getD n (0, 0)).1 := by
  induction l generalizing n with
  | nil => simp
  | cons x xs ih =>
    cases n with
    | zero => simp
    | succ m => simpa using ih m

theorem map_fst_insertionSort (l : List (ℤ × ℤ)) :
    (List.insertionSort obsLe l).map Prod.fst
      = List.insertionSort (· ≤ ·) (l.map Prod.fst) := by
  apply List.eq_of_perm_of_sorted (r := (· ≤ · : ℤ → ℤ → Prop))
  · exact ((List.perm_insertionSort obsLe l).map Prod.fst).trans
      (List.perm_insertionSort (· ≤ ·) (l.map Prod.fst)).symm
  · have hs := List.sorted_insertionSort obsLe l
    exact List.Pairwise.map Prod.fst
      (fun a b hab => by
        rcases hab with h | ⟨h, _⟩
        · exact le_of_lt h
        · exact le_of_eq h) hs
  · exact List.sorted_insertionSort (· ≤ ·) (l.map Prod.fst)

theorem aggregate_ok_inv {agg : PriceAggregator}
    {prices : List (String × Option ℚ)} {prev : Option ℚ} {pr : ℚ}
    {srcs : List String} {dr : List (String × ℚ)} {cnt : ℕ} {im : ℚ}
    (h : agg.aggregate prices prev = .ok pr srcs dr cnt im) :
    pr = finalMedianOf agg.max_deviation_percent prices ∧
    srcs = (filteredOf agg.max_deviation_percent prices).map Prod.fst ∧
    dr = outliersOf agg.max_deviation_percent prices ∧
    cnt = (filteredOf agg.max_deviation_percent prices).length ∧
    im = initialMedianOf prices := by
  unfold PriceAggregator.aggregate at h
  dsimp only at h
  split_ifs at h
  rcases prev with _ | pv <;>
    rcases hdl : agg.drift_limit_percent with _ | dlim <;>
      rw [hdl] at h <;> dsimp only at h
  all_goals try split_ifs at h
  all_goals
    simp only [AggResult.ok.injEq] at h
  all_goals
    obtain ⟨h1, h2, h3, h4, h5⟩ := h
    exact ⟨h1.symm, h2.symm, h3.symm, h4.symm, h5.symm⟩

theorem aggregate_drift_inv {agg : PriceAggregator}
    {prices : List (String × Option ℚ)} {prev : Option ℚ}
    {dr pv cand : ℚ}
    (h : agg.aggregate prices prev = .driftTooLarge dr pv cand) :
    ∃ dlim, agg.drift_limit_percent = some dlim ∧ dlim < dr := by
  unfold PriceAggregator.aggregate at h
  dsimp only at h
  split_ifs at h
  rcases prev with _ | pv0 <;>
    rcases hdl : agg.drift_limit_percent with _ | dlim <;>
      rw [hdl] at h <;> dsimp only at h
  all_goals try split_ifs at h with hlt
  all_goals
    first
      | (simp only [AggResult.driftTooLarge.injEq] at h
         exact ⟨dlim, rfl, h.1 ▸ hlt⟩)
      | simp at h

theorem aggregate_droppedMeta (agg : PriceAggregator)
    (prices : List (String × Option ℚ)) (prev : Option ℚ) :
    (agg.aggregate prices prev).droppedMeta = [] ∨
    (agg.aggregate prices prev).droppedMeta
      = outliersOf agg.max_deviation_percent prices := by
  unfold PriceAggregator.aggregate
  dsimp only
  split_ifs
  · exact Or.inl rfl
  · exact Or.inr rfl
  · rcases prev with _ | pv <;>
      rcases hdl : agg.drift_limit_percent with _ | dlim <;> dsimp only
    · exact Or.inr rfl
    · exact Or.inr rfl
    · exact Or.inr rfl
    · split_ifs
      · exact Or.inl rfl
      · exact Or.inr rfl

theorem lowerCp_idem (c : ℕ) : lowerCp (lowerCp c) = lowerCp c := by
  by_cases h : 65 ≤ c ∧ c ≤ 90
  · simp only [lowerCp, if_pos h]
    rw [if_neg]
    omega
  · simp only [lowerCp, if_neg h]

theorem lowerCp_eq_slash {c : ℕ} (h : lowerCp c = slash) : c = slash := by
  simp only [lowerCp, slash] at h ⊢
  split_ifs at h <;> omega

theorem lowerStr_idem (s : Cp) : lowerStr (lowerStr s) = lowerStr s := by
  unfold lowerStr
  rw [List.map_map]
  exact List.map_congr_left fun c _ => lowerCp_idem c

theorem slash_not_mem_lowerStr {b : Cp} (hb : slash ∉ b) :
    slash ∉ lowerStr b := by
  intro hmem
  rcases List.mem_map.mp hmem with ⟨c, hc, hlc⟩
  exact hb (lowerCp_eq_slash hlc ▸ hc)

theorem splitSlash_ne_nil (s : Cp) : splitSlash s ≠ [] := by
  cases s with
  | nil => simp [splitSlash]
  | cons c cs =>
    unfold splitSlash
    rcases h : splitSlash cs with _ | ⟨p, ps⟩
    · simp
    · split_ifs <;> simp

theorem splitSlash_no_slash {q : Cp} (hq : slash ∉ q) :
    splitSlash q = [q] := by
  induction q with
  | nil => rfl
  | cons c cs ih =>
    have hc : c ≠ slash := fun h => hq (h ▸ List.mem_cons_self c cs)
    have hcs : slash ∉ cs := fun h => hq (List.mem_cons_of_mem c h)
    unfold splitSlash
    rw [ih hcs]
    simp [hc]

theorem splitSlash_append {b : Cp} (r : Cp) (hb : slash ∉ b) :
    splitSlash (b ++ slash :: r) = b :: splitSlash r := by
  induction b with
  | nil =>
    rw [List.nil_append]
    rcases h : splitSlash r with _ | ⟨p, ps⟩
    · exact absurd h (splitSlash_ne_nil r)
    · conv_lhs => rw [splitSlash.eq_def]
      dsimp only
      rw [h]
      simp
  | cons c cs ih =>
    have hc : c ≠ slash := fun h => hb (h ▸ List.mem_cons_self c cs)
    have hcs : slash ∉ cs := fun h => hb (List.mem_cons_of_mem c h)
    have ih' := ih hcs
    rw [List.cons_append]
    conv_lhs => rw [splitSlash.eq_def]
    dsimp only
    rw [ih']
    simp [hc]

theorem joinSlash_splitSlash (s : Cp) : joinSlash (splitSlash s) = s := by
  induction s with
  | nil => rfl
  | cons c cs ih =>
    rcases h : splitSlash cs with _ | ⟨p, ps⟩
    · exact absurd h (splitSlash_ne_nil cs)
    · rw [h] at ih
      conv_lhs => rw [splitSlash.eq_def]
      dsimp only
      rw [h]
      dsimp only
      by_cases hc : c = slash
      · rw [if_pos hc, hc]
        simp [joinSlash, ih]
      · rw [if_neg hc]
        rcases ps with _ | ⟨q, qs⟩
        · simp only [joinSlash] at ih ⊢
          rw [ih]
        · simp only [joinSlash] at ih ⊢
          rw [List.cons_append, ih]

theorem lowerStr_parts {s a b : Cp}
    (h : splitSlash (lowerStr s) = [a, b]) :
    lowerStr a = a ∧ lowerStr b = b ∧ lowerStr s = a ++ slash :: b := by
  have hjoin := joinSlash_splitSlash (lowerStr s)
  rw [h] at hjoin
  have heq : a ++ slash :: b = lowerStr s := by
    simpa [joinSlash] using hjoin
  have hfix : ∀ c ∈ lowerStr s, lowerCp c = c := by
    intro c hc
    rcases List.mem_map.mp hc with ⟨c0, _, rfl⟩
    exact lowerCp_idem c0
  have ha : ∀ c ∈ a, lowerCp c = c := fun c hc =>
    hfix c (heq ▸ List.mem_append_left _ hc)
  have hb : ∀ c ∈ b, lowerCp c = c := fun c hc =>
    hfix c (heq ▸ List.mem_append_right _ (List.mem_cons_of_mem _ hc))
  refine ⟨?_, ?_, heq.symm⟩
  · exact (List.map_congr_left ha).trans (List.map_id a)
  · exact (List.map_congr_left hb).trans (List.map_id b)

theorem from_string_ok {s : Cp} {p : AggregatedPair}
    (h : AggregatedPair.from_string s = some p) :
    lowerStr s = p.pair_base ++ slash :: p.pair_quote := by
  unfold AggregatedPair.from_string at h
  rcases hsp : splitSlash (lowerStr s) with _ | ⟨a, _ | ⟨b, _ | ⟨x, xs⟩⟩⟩ <;>
    rw [hsp] at h <;> dsimp only at h
  · cases h
  · cases h
  · obtain ⟨hfa, hfb, hs⟩ := lowerStr_parts hsp
    have hp : AggregatedPair.make a b = p := Option.some.inj h
    rw [← hp]
    simp only [AggregatedPair.make, hfa, hfb]
    exact hs
  · cases h

theorem statusOf_record_failure (m : SourceManager) (source : String)
    (now : ℚ) :
    ((m.record_failure source now).2.statusOf source).consecutive_failures
      = (m.statusOf source).consecutive_failures + 1 := by
  simp [SourceManager.record_failure, SourceManager.statusOf, alookup_aset]

theorem failSeq_getD (s : String) (now : ℚ) :
    ∀ (k : ℕ) (m : SourceManager) (i : ℕ), i < k →
      (m.failSeq s now k).getD i 0
        = min (m.base_backoff_seconds
              * 2 ^ ((m.statusOf s).consecutive_failures + i))
            m.max_backoff_seconds := by
  intro k
  induction k with
  | zero => intro m i h; omega
  | succ n ih =>
    intro m i h
    cases i with
    | zero =>
      simp [SourceManager.failSeq, SourceManager.record_failure]
    | succ j =>
      have hj : j < n := by omega
      have hrec := ih (m.record_failure s now).2 j hj
      have hbase : (m.record_failure s now).2.base_backoff_seconds
          = m.base_backoff_seconds := rfl
      have hmax : (m.record_failure s now).2.max_backoff_seconds
          = m.max_backoff_seconds := rfl
      have harith : (m.statusOf s).consecutive_failures + 1 + j
          = (m.statusOf s).consecutive_failures + (j + 1) := by omega
      simp only [SourceManager.failSeq, List.getD_cons_succ]
      rw [hrec, hbase, hmax, statusOf_record_failure, harith]

theorem aggregate_pricesEx :
    PriceAggregator.aggregate ⟨2, 5, some 10⟩
      [("a", some ((44:ℚ)/25)), ("b", some (89/50))] none
      = .ok (177/100) ["a", "b"] [] 2 (177/100) := by
  have hv : validOf [("a", some ((44:ℚ)/25)), ("b", some (89/50))]
      = [("a", 44/25), ("b", 89/50)] := by
    norm_num [validOf, List.filterMap_cons]
  have him : initialMedianOf [("a", some ((44:ℚ)/25)), ("b", some (89/50))]
      = 177/100 := by
    norm_num [initialMedianOf, hv, median, pySorted, List.insertionSort,
      List.orderedInsert]
  have hfil : filteredOf 5 [("a", some ((44:ℚ)/25)), ("b", some (89/50))]
      = [("a", 44/25), ("b", 89/50)] := by
    norm_num [filteredOf, hv, him, deviationPct, List.filter_cons]
    split_ifs with h <;> norm_num [abs_of_nonneg] at h ⊢
  have hout : outliersOf 5 [("a", some ((44:ℚ)/25)), ("b", some (89/50))]
      = [] := by
    norm_num [outliersOf, hv, him, deviationPct, List.filter_cons]
    split_ifs with h <;> norm_num [abs_of_nonneg] at h ⊢
  have hfm : finalMedianOf 5 [("a", some ((44:ℚ)/25)), ("b", some (89/50))]
      = 177/100 := by
    norm_num [finalMedianOf, hfil, median, pySorted, List.insertionSort,
      List.orderedInsert]
  simp only [PriceAggregator.aggregate, hv, him, hfil, hout, hfm]
  norm_num

theorem receive_pricesEx :
    obBase.receive_prices pricesEx 5 = (obBaseAfter, true, some (177/100)) := by
  have hsu : obBase.updateSources pricesEx 5
      = ((obBase.source_manager.record_success "a").record_success "b",
          pricesEx) := by
    simp +decide [PairObserver.updateSources, pricesEx, obBase]
  have h17 : pyInt ((177:ℚ)/100 * 10 ^ (1:ℕ)) = 17 := by
    have h : ((177:ℚ)/100 * 10 ^ (1:ℕ)) = mkRat 177 10 := by
      rw [Rat.mkRat_eq_div]; norm_num
    rw [h]; decide
  have h5 : pyInt (5:ℚ) = 5 := by decide
  unfold PairObserver.receive_prices
  rw [hsu]
  dsimp only
  rw [show obBase.aggregator = ⟨2, 5, some 10⟩ from rfl,
    show obBase.last_good_median = none from rfl,
    show pricesEx = [("a", some ((44:ℚ)/25)), ("b", some (89/50))] from rfl,
    aggregate_pricesEx]
  dsimp only
  rw [show obBase.decimals = 1 from rfl, h17, h5]
  simp +decide [obBase, obBaseAfter, pricesEx]

/-- `1.0` price for a single source, not enough for `min_sources = 2`. -/
def pricesOne : List (String × Option ℚ) := [("a", some 1)]

/-- An observer with three accumulated observations, prices already in
increasing buffer order. -/
def obSubmit : PairObserver :=
  { obBase with observations := [(100, 1), (105, 2), (110, 3)] }

/-! ## Claims -/

/-- Claim C1, amended: for every successful aggregation in
`PairObserver.receive_prices`, the observation appended to the buffer is
the pair `(int(median × 10^decimals), int(now))` — Python `int`
truncation toward zero of the scaled median (not rounding to nearest)
and the current wall-clock seconds. -/
theorem c1_scaled_price_truncation (ob : PairObserver)
    (prices : List (String × Option ℚ)) (now : ℚ)
    (h : (ob.receive_prices prices now).2.1 = true) :
    ∃ q, (ob.receive_prices prices now).2.2 = some q ∧
      (ob.receive_prices prices now).1.observations
        = ob.observations ++ [(pyInt (q * 10 ^ ob.decimals), pyInt now)] := by
  unfold PairObserver.receive_prices at h ⊢
  dsimp only at h ⊢
  cases hagg : ob.aggregator.aggregate (ob.updateSources prices now).2
      ob.last_good_median with
  | ok pr srcs dr cnt im => exact ⟨pr, rfl, rfl⟩
  | insufficientSources av => rw [hagg] at h; cases h
  | tooManyOutliers dr => rw [hagg] at h; cases h
  | driftTooLarge d pv cand => rw [hagg] at h; cases h

theorem c1_scaled_price_truncation_witness :
    ∃ q, (obBase.receive_prices pricesEx 5).2.2 = some q ∧
      (obBase.receive_prices pricesEx 5).1.observations
        = obBase.observations
            ++ [(pyInt (q * 10 ^ obBase.decimals), pyInt 5)] :=
  c1_scaled_price_truncation obBase pricesEx 5 (by rw [receive_pricesEx])

/-- Claim C1, counterexample to the claim as stated: on a successful
aggregation with median `1.77` and `decimals = 1` the code appends the
truncated scaled price `17`, whereas `round(median × 10^decimals)` is
`18`. -/
theorem c1_round_counterexample :
    obBase.receive_prices pricesEx 5 = (obBaseAfter, true, some (177/100)) ∧
    obBaseAfter.observations = [(17, 5)] ∧
    specRound ((177:ℚ)/100 * 10 ^ obBase.decimals) = 18 ∧
    (17 : ℤ) ≠ 18 := by
  refine ⟨receive_pricesEx, rfl, ?_, by decide⟩
  rw [show obBase.decimals = 1 from rfl]
  norm_num [specRound, round_eq]

/-- Claim C7: when aggregation fails, `receive_prices` leaves the
observation buffer and `last_good_median` exactly as they were, appends
nothing, and returns `(False, None)`. -/
theorem c7_failure_keeps_state (ob : PairObserver)
    (prices : List (String × Option ℚ)) (now : ℚ)
    (h : (ob.receive_prices prices now).2.1 = false) :
    (ob.receive_prices prices now).1.observations = ob.observations ∧
    (ob.receive_prices prices now).1.last_good_median
      = ob.last_good_median ∧
    (ob.receive_prices prices now).2.2 = none := by
  unfold PairObserver.receive_prices at h ⊢
  dsimp only at h ⊢
  cases hagg : ob.aggregator.aggregate (ob.updateSources prices now).2
      ob.last_good_median with
  | ok pr srcs dr cnt im => rw [hagg] at h; cases h
  | insufficientSources av => exact ⟨rfl, rfl, rfl⟩
  | tooManyOutliers dr => exact ⟨rfl, rfl, rfl⟩
  | driftTooLarge d pv cand => exact ⟨rfl, rfl, rfl⟩

theorem c7_failure_keeps_state_witness :
    (obBase.receive_prices pricesOne 5).1.observations
        = obBase.observations ∧
    (obBase.receive_prices pricesOne 5).1.last_good_median
        = obBase.last_good_median ∧
    (obBase.receive_prices pricesOne 5).2.2 = none :=
  c7_failure_keeps_state obBase pricesOne 5 (by decide)

/-- Claim C8: a successful `submit` on a non-empty buffer leaves the
buffer empty and increments `round_id` by exactly one. -/
theorem c8_submit_resets (ob : PairObserver) (now : ℚ)
    (h : ob.observations ≠ []) :
    ∃ call ob', ob.submit now = some (call, ob') ∧
      ob'.observations = [] ∧ ob'.round_id = ob.round_id + 1 := by
  rcases hobs : ob.observations with _ | ⟨o, rest⟩
  · exact absurd hobs h
  · unfold PairObserver.submit
    rw [hobs]
    exact ⟨_, _, rfl, rfl, rfl⟩

theorem c8_submit_resets_witness :
    ∃ call ob', obSubmit.submit 9 = some (call, ob') ∧
      ob'.observations = [] ∧ ob'.round_id = obSubmit.round_id + 1 :=
  c8_submit_resets obSubmit 9 (by decide)

/-- Claim C3: on a non-empty buffer of `n` observations, `submit`
submits `(round_id + 1, price of the observation at index n/2 of the
buffer sorted by price, timestamp of the first accumulated observation,
timestamp of the last accumulated observation)`; in particular three
observations `(p1,t1),(p2,t2),(p3,t3)` with `p1<p2<p3` submit
`(round_id+1, p2, t1, t3)`. -/
theorem c3_submit_payload :
    (∀ (ob : PairObserver) (now : ℚ), ob.observations ≠ [] →
      ∃ ob', ob.submit now = some
        (⟨ob.round_id + 1,
          (List.insertionSort (· ≤ ·) (ob.observations.map Prod.fst)).getD
            (ob.observations.length / 2) 0,
          (ob.observations.headD (0, 0)).2,
          (ob.observations.getLastD (0, 0)).2⟩, ob')) ∧
    (∀ (ob : PairObserver) (now : ℚ) (p1 t1 p2 t2 p3 t3 : ℤ),
      ob.observations = [(p1, t1), (p2, t2), (p3, t3)] →
      p1 < p2 → p2 < p3 →
      ∃ ob', ob.submit now
        = some (⟨ob.round_id + 1, p2, t1, t3⟩, ob')) := by
  constructor
  · intro ob now h
    rcases hobs : ob.observations with _ | ⟨o, rest⟩
    · exact absurd hobs h
    · unfold PairObserver.submit
      rw [hobs, ← map_fst_insertionSort, getD_map_fst]
      exact ⟨_, rfl⟩
  · intro ob now p1 t1 p2 t2 p3 t3 hobs h12 h23
    have hsorted : List.insertionSort obsLe [(p1, t1), (p2, t2), (p3, t3)]
        = [(p1, t1), (p2, t2), (p3, t3)] := by
      apply List.Sorted.insertionSort_eq
      simp only [List.sorted_cons, List.mem_cons, List.mem_singleton]
      refine ⟨?_, ?_, ?_⟩
      · rintro b (rfl | rfl | h)
        · exact Or.inl h12
        · exact Or.inl (h12.trans h23)
        · cases h
      · rintro b (rfl | h)
        · exact Or.inl h23
        · cases h
      · simp
    unfold PairObserver.submit
    rw [hobs, hsorted]
    refine ⟨{ ob with round_id := ob.round_id + 1, last_submit := now, observations := [] }, ?_⟩
    simp

theorem c3_submit_payload_witness :
    ∃ ob', obSubmit.submit 9
      = some (⟨obSubmit.round_id + 1, 105, 1, 3⟩, ob') :=
  c3_submit_payload.2 obSubmit 9 100 1 105 2 110 3 rfl (by decide) (by decide)

/-- Claim C2, counterexample to the claim as stated: parsing the
canonical string form `"aggregated/btc/usd"` of the pair `(btc, usd)`
with `from_string` does not succeed — it raises `ValueError` (three
`/`-separated parts instead of two). -/
theorem c2_canonical_counterexample :
    AggregatedPair.from_string
      (AggregatedPair.toStr (AggregatedPair.make (cp "btc") (cp "usd")))
      = none := by decide

/-- Claim C2, amended: `from_string` round-trips through the pair form
`"<base>/<quote>"` (not the canonical form `"aggregated/<base>/<quote>"`,
whose parse raises `ValueError`): for slash-free `base` and `quote`,
parsing `"<base>/<quote>"` yields exactly the constructed pair; and
`from_string` is injective modulo letter case: two successfully parsed
strings that differ other than by case parse to distinct pairs. -/
theorem c2_from_string_roundtrip :
    (∀ b q : Cp, slash ∉ b → slash ∉ q →
      AggregatedPair.from_string (b ++ slash :: q)
        = some (AggregatedPair.make b q)) ∧
    (∀ (s1 s2 : Cp) (p1 p2 : AggregatedPair),
      AggregatedPair.from_string s1 = some p1 →
      AggregatedPair.from_string s2 = some p2 →
      lowerStr s1 ≠ lowerStr s2 → p1 ≠ p2) := by
  constructor
  · intro b q hb hq
    have h1 : lowerStr (b ++ slash :: q)
        = lowerStr b ++ slash :: lowerStr q := by
      unfold lowerStr
      rw [List.map_append, List.map_cons]
      norm_num [lowerCp, slash]
    have hsplit : splitSlash (lowerStr (b ++ slash :: q))
        = [lowerStr b, lowerStr q] := by
      rw [h1, splitSlash_append _ (slash_not_mem_lowerStr hb),
        splitSlash_no_slash (slash_not_mem_lowerStr hq)]
    unfold AggregatedPair.from_string
    rw [hsplit]
    dsimp only
    simp [AggregatedPair.make, lowerStr_idem]
  · intro s1 s2 p1 p2 h1 h2 hne heq
    apply hne
    rw [from_string_ok h1, from_string_ok h2, heq]

theorem c2_from_string_roundtrip_witness :
    AggregatedPair.from_string (cp "BTC" ++ slash :: cp "usd")
      = some (AggregatedPair.make (cp "BTC") (cp "usd")) ∧
    AggregatedPair.make (cp "btc") (cp "usd")
      ≠ AggregatedPair.make (cp "eth") (cp "usd") :=
  ⟨c2_from_string_roundtrip.1 (cp "BTC") (cp "usd") (by decide) (by decide),
   c2_from_string_roundtrip.2 (cp "btc/usd") (cp "eth/usd") _ _
     (by decide) (by decide) (by decide)⟩

/-- Claim C10: the `PriceAggregator` constructor raises `ValueError`
exactly when `min_sources < 1`, or `max_deviation_percent ≤ 0`, or a
provided `drift_limit_percent` is `≤ 0`; otherwise it succeeds and
stores the three parameters unchanged. -/
theorem c10_init_validation (ms : ℤ) (md : ℚ) (dl : Option ℚ) :
    (PriceAggregator.init ms md dl = none ↔
      ms < 1 ∨ md ≤ 0 ∨ ∃ d, dl = some d ∧ d ≤ 0) ∧
    (∀ a, PriceAggregator.init ms md dl = some a →
      a.min_sources = ms ∧ a.max_deviation_percent = md ∧
        a.drift_limit_percent = dl) := by
  unfold PriceAggregator.init
  rcases dl with _ | d
  · constructor
    · split_ifs with h1 h2 <;> simp_all
    · intro a ha
      split_ifs at ha with h1 h2
      all_goals cases ha
      all_goals exact ⟨rfl, rfl, rfl⟩
  · constructor
    · dsimp only
      split_ifs with h1 h2 h3 <;> simp_all
    · intro a ha
      dsimp only at ha
      split_ifs at ha with h1 h2 h3
      all_goals cases ha
      all_goals exact ⟨rfl, rfl, rfl⟩

theorem c10_init_validation_witness :
    PriceAggregator.init 0 5 none = none ∧
    ((⟨2, 5, some 10⟩ : PriceAggregator).min_sources = 2 ∧
      (⟨2, 5, some 10⟩ : PriceAggregator).max_deviation_percent = 5 ∧
      (⟨2, 5, some 10⟩ : PriceAggregator).drift_limit_percent = some 10) :=
  ⟨(c10_init_validation 0 5 none).1.mpr (Or.inl (by decide)),
   (c10_init_validation 2 5 (some 10)).2 ⟨2, 5, some 10⟩ (by decide)⟩

theorem filter_append_not_filter_perm {α : Type _} (p : α → Bool)
    (l : List α) : (l.filter p ++ l.filter (fun a => !p a)).Perm l := by
  induction l with
  | nil => simp
  | cons a t ih =>
    by_cases hp : p a
    · simpa [List.filter_cons, hp] using ih.cons a
    · simp only [List.filter_cons, hp, Bool.not_false, if_neg]
      simp only [Bool.false_eq_true, if_false, Bool.not_eq_true', hp,
        if_true]
      exact List.perm_middle.trans (ih.cons a)

/-- Claim C4: the outlier filter keeps a source whose deviation from
the initial median is exactly `max_deviation_percent` (the bound is
inclusive), while the drift guard rejects with `drift_too_large` only
when the drift is strictly greater than `drift_limit_percent` — a
candidate exactly at the limit is accepted. -/
theorem c4_threshold_boundaries :
    (∀ (agg : PriceAggregator) (prices : List (String × Option ℚ))
        (prev : Option ℚ) (s : String) (p : ℚ),
      (prices.map Prod.fst).Nodup → (s, p) ∈ validOf prices →
      deviationPct (initialMedianOf prices) p = agg.max_deviation_percent →
      s ∉ (agg.aggregate prices prev).droppedMeta.map Prod.fst ∧
      (∀ pr srcs dr cnt im,
        agg.aggregate prices prev = .ok pr srcs dr cnt im → s ∈ srcs)) ∧
    (∀ (agg : PriceAggregator) (prices : List (String × Option ℚ))
        (prev : Option ℚ) (dr pv cand : ℚ),
      agg.aggregate prices prev = .driftTooLarge dr pv cand →
      ∃ dlim, agg.drift_limit_percent = some dlim ∧ dlim < dr) ∧
    (∀ (agg : PriceAggregator) (prices : List (String × Option ℚ))
        (pv dlim : ℚ),
      ¬ ((validOf prices).length : ℤ) < agg.min_sources →
      ¬ ((filteredOf agg.max_deviation_percent prices).length : ℤ)
          < agg.min_sources →
      agg.drift_limit_percent = some dlim →
      |finalMedianOf agg.max_deviation_percent prices - pv| / pv * 100
        = dlim →
      agg.aggregate prices (some pv)
        = .ok (finalMedianOf agg.max_deviation_percent prices)
            ((filteredOf agg.max_deviation_percent prices).map Prod.fst)
            (outliersOf agg.max_deviation_percent prices)
            ((filteredOf agg.max_deviation_percent prices).length)
            (initialMedianOf prices)) := by
  refine ⟨?_, ?_, ?_⟩
  · intro agg prices prev s p hnd hmem hdev
    have hnd' : ((validOf prices).map Prod.fst).Nodup :=
      hnd.sublist (keys_validOf_sublist prices)
    constructor
    · intro hs
      rcases aggregate_droppedMeta agg prices prev with hd | hd
      · rw [hd] at hs; cases hs
      · rw [hd] at hs
        rcases List.mem_map.mp hs with ⟨⟨s', p'⟩, hmem', hfst⟩
        obtain rfl : s' = s := hfst
        have hf := List.mem_filter.mp hmem'
        have hp' : p' = p := mem_keys_val_unique hnd' hf.1 hmem
        rw [hp', hdev] at hf
        simp at hf
    · intro pr srcs dr cnt im hok
      obtain ⟨_, hsrcs, _, _, _⟩ := aggregate_ok_inv hok
      rw [hsrcs]
      exact List.mem_map.mpr
        ⟨(s, p), List.mem_filter.mpr ⟨hmem, by simp [hdev]⟩, rfl⟩
  · intro agg prices prev dr pv cand h
    exact aggregate_drift_inv h
  · intro agg prices pv dlim h1 h2 hdl hdrift
    unfold PriceAggregator.aggregate
    dsimp only
    rw [if_neg h1, if_neg h2, hdl]
    dsimp only
    rw [hdrift, if_neg (lt_irrefl dlim)]

/-- Claim C6: on success, the sources used and the dropped sources
partition the positive-valued input sources: their concatenation
permutes the keys of the positive entries, those keys are exactly the
sources whose price was not `None` and strictly positive, and the two
lists are disjoint. -/
theorem c6_partition (agg : PriceAggregator)
    (prices : List (String × Option ℚ)) (prev : Option ℚ) (pr : ℚ)
    (srcs : List String) (dr : List (String × ℚ)) (cnt : ℕ) (im : ℚ)
    (hnd : (prices.map Prod.fst).Nodup)
    (h : agg.aggregate prices prev = .ok pr srcs dr cnt im) :
    (srcs ++ dr.map Prod.fst).Perm ((validOf prices).map Prod.fst) ∧
    (∀ s : String, s ∈ (validOf prices).map Prod.fst ↔
      ∃ p, (s, some p) ∈ prices ∧ 0 < p) ∧
    srcs.Disjoint (dr.map Prod.fst) := by
  obtain ⟨_, hsrcs, hdr, _, _⟩ := aggregate_ok_inv h
  subst hsrcs
  subst hdr
  refine ⟨?_, ?_, ?_⟩
  · rw [← List.map_append]
    exact (filter_append_not_filter_perm _ (validOf prices)).map Prod.fst
  · intro s
    constructor
    · intro hs
      rcases List.mem_map.mp hs with ⟨⟨s', p'⟩, hm, hfst⟩
      obtain rfl : s' = s := hfst
      exact ⟨p', (mem_validOf.mp hm).1, (mem_validOf.mp hm).2⟩
    · rintro ⟨p, hp, hpos⟩
      exact List.mem_map.mpr ⟨(s, p), mem_validOf.mpr ⟨hp, hpos⟩, rfl⟩
  · intro s hs1 hs2
    rcases List.mem_map.mp hs1 with ⟨⟨s1, p1⟩, hm1, hf1⟩
    rcases List.mem_map.mp hs2 with ⟨⟨s2, p2⟩, hm2, hf2⟩
    have hq1 := List.mem_filter.mp hm1
    have hq2 := List.mem_filter.mp hm2
    have h12 : s2 = s1 := by
      rw [show s2 = s from hf2, show s1 = s from hf1]
    rw [h12] at hq2
    have hnd' : ((validOf prices).map Prod.fst).Nodup :=
      hnd.sublist (keys_validOf_sublist prices)
    have hp12 : p1 = p2 := mem_keys_val_unique hnd' hq1.1 hq2.1
    rw [hp12] at hq1
    rcases hq1 with ⟨_, hq1b⟩
    rcases hq2 with ⟨_, hq2b⟩
    rw [hq1b] at hq2b
    cases hq2b

/-- Exact-threshold deviation inputs: both prices deviate from the
initial median `100` by exactly `5%`. -/
def pricesC4 : List (String × Option ℚ) := [("a", some 95), ("b", some 105)]

/-- A single source at `110`, drifting exactly `10%` from a previous
price of `100`. -/
def pricesC4b : List (String × Option ℚ) := [("a", some 110)]

/-- The docstring example: one outlier among three valid sources plus a
failed source. -/
def pricesC6 : List (String × Option ℚ) :=
  [("a", some 100), ("b", some 101), ("rogue", some 200), ("x", none)]

theorem filteredOf_pricesC4b : filteredOf 5 pricesC4b = [("a", 110)] := by
  have hv : validOf pricesC4b = [("a", 110)] := by decide
  have him : initialMedianOf pricesC4b = 110 := by decide
  norm_num [filteredOf, hv, him, deviationPct, List.filter_cons]

theorem finalMedianOf_pricesC4b : finalMedianOf 5 pricesC4b = 110 := by
  norm_num [finalMedianOf, filteredOf_pricesC4b, median, pySorted,
    List.insertionSort, List.orderedInsert]

theorem outliersOf_pricesC4b : outliersOf 5 pricesC4b = [] := by
  have hv : validOf pricesC4b = [("a", 110)] := by decide
  have him : initialMedianOf pricesC4b = 110 := by decide
  norm_num [outliersOf, hv, him, deviationPct, List.filter_cons]

theorem c4_threshold_boundaries_witness :
    "a" ∉ ((PriceAggregator.aggregate ⟨2, 5, none⟩ pricesC4
        none).droppedMeta.map Prod.fst) ∧
    PriceAggregator.aggregate ⟨1, 5, some 10⟩ pricesC4b (some 100)
      = .ok 110 ["a"] [] 1 110 := by
  constructor
  · refine (c4_threshold_boundaries.1 ⟨2, 5, none⟩ pricesC4 none "a" 95
      (by decide) (by decide) ?_).1
    have him : initialMedianOf pricesC4 = 100 := by
      norm_num [initialMedianOf, validOf, median, pySorted,
        List.insertionSort, List.orderedInsert, List.filterMap_cons,
        pricesC4]
    show deviationPct (initialMedianOf pricesC4) 95 = 5
    rw [him]
    norm_num [deviationPct, abs_of_nonpos]
  · have h := c4_threshold_boundaries.2.2 ⟨1, 5, some 10⟩ pricesC4b 100 10
      (by decide)
      (by rw [show (⟨1, 5, some 10⟩ : PriceAggregator).max_deviation_percent
            = 5 from rfl, filteredOf_pricesC4b]; decide)
      rfl
      (by rw [show (⟨1, 5, some 10⟩ : PriceAggregator).max_deviation_percent
            = 5 from rfl, finalMedianOf_pricesC4b]
          norm_num [abs_of_nonneg])
    dsimp only at h
    rw [finalMedianOf_pricesC4b, filteredOf_pricesC4b,
      outliersOf_pricesC4b, show initialMedianOf pricesC4b = 110 from
        by decide] at h
    exact h

theorem aggregate_pricesC6 :
    PriceAggregator.aggregate ⟨2, 5, none⟩ pricesC6 none
      = .ok (201/2) ["a", "b"] [("rogue", 200)] 2 101 := by
  have hv : validOf pricesC6
      = [("a", 100), ("b", 101), ("rogue", 200)] := by decide
  have him : initialMedianOf pricesC6 = 101 := by decide
  have hfil : filteredOf 5 pricesC6 = [("a", 100), ("b", 101)] := by
    norm_num [filteredOf, hv, him, deviationPct, List.filter_cons]
  have hout : outliersOf 5 pricesC6 = [("rogue", 200)] := by
    norm_num [outliersOf, hv, him, deviationPct, List.filter_cons]
  have hfm : finalMedianOf 5 pricesC6 = 201/2 := by
    norm_num [finalMedianOf, hfil, median, pySorted, List.insertionSort,
      List.orderedInsert]
  simp only [PriceAggregator.aggregate, hv, him, hfil, hout, hfm]
  norm_num

theorem c6_partition_witness :
    ((["a", "b"] ++ ([("rogue", (200:ℚ))].map Prod.fst)).Perm
        ((validOf pricesC6).map Prod.fst)) ∧
    (∀ s : String, s ∈ (validOf pricesC6).map Prod.fst ↔
      ∃ p, (s, some p) ∈ pricesC6 ∧ 0 < p) ∧
    (["a", "b"] : List String).Disjoint ([("rogue", (200:ℚ))].map Prod.fst) :=
  c6_partition ⟨2, 5, none⟩ pricesC6 none (201/2) ["a", "b"]
    [("rogue", 200)] 2 101 (by decide) aggregate_pricesC6

/-- Claim C5: the value returned by the `k`-th consecutive
`record_failure` (no intervening `record_success`, counter starting at
zero) is `min(base × 2^(k-1), max)`; with the defaults `base = 5`,
`max = 300` the returned sequence is `5, 10, 20, 40, 80, 160, 300,
300`; and for `0 ≤ base ≤ max` every returned value lies in
`[base, max]` from any starting state. -/
theorem c5_backoff_ladder :
    (∀ (m : SourceManager) (s : String) (now : ℚ) (k i : ℕ),
      (m.statusOf s).consecutive_failures = 0 → i < k →
      (m.failSeq s now k).getD i 0
        = min (m.base_backoff_seconds * 2 ^ i) m.max_backoff_seconds) ∧
    (∀ now : ℚ, (SourceManager.init ["api"] 5 300).failSeq "api" now 8
      = [5, 10, 20, 40, 80, 160, 300, 300]) ∧
    (∀ (m : SourceManager) (s : String) (now : ℚ) (k i : ℕ), i < k →
      0 ≤ m.base_backoff_seconds →
      m.base_backoff_seconds ≤ m.max_backoff_seconds →
      m.base_backoff_seconds ≤ (m.failSeq s now k).getD i 0 ∧
        (m.failSeq s now k).getD i 0 ≤ m.max_backoff_seconds) := by
  refine ⟨?_, ?_, ?_⟩
  · intro m s now k i h0 hik
    rw [failSeq_getD s now k m i hik, h0, Nat.zero_add]
  · intro now
    norm_num [SourceManager.failSeq, SourceManager.record_failure,
      SourceManager.statusOf, SourceManager.init, alookup, aset,
      SourceStatus.fresh]
  · intro m s now k i hik hb hbm
    rw [failSeq_getD s now k m i hik]
    exact ⟨le_min (le_mul_of_one_le_right hb (one_le_pow₀ (by norm_num)))
      hbm, min_le_right _ _⟩

theorem c5_backoff_ladder_witness :
    (SourceManager.init ["api"] 5 300).failSeq "api" 0 8
        = [5, 10, 20, 40, 80, 160, 300, 300] ∧
    ((SourceManager.init ["api"] 5 300).failSeq "api" 0 7).getD 6 0
        = min ((5:ℚ) * 2 ^ (6:ℕ)) 300 :=
  ⟨c5_backoff_ladder.2.1 0,
   c5_backoff_ladder.1 (SourceManager.init ["api"] 5 300) "api" 0 7 6
     (by decide) (by decide)⟩

/-- Claim C9: a USDT-routed binance sample whose USDT→USD factor
deviates from 1 by strictly more than 2% is rejected: `fetch` returns
`None`, and in a batch the factor is nulled once so every USDT-routed
pair of that tick maps to `None`. -/
theorem c9_depeg_guard :
    (∀ (pair_info : List ((Cp × Cp) × Cp × Bool))
        (price_map : List (Cp × Option ℚ)) (base quote symbol : Cp)
        (r : ℚ),
      alookup pair_info (lowerStr base, lowerStr quote)
        = some (symbol, true) →
      (alookup price_map (cp "USDTUSD")).getD none = some r →
      1/50 < |r - 1| →
      binanceFetch pair_info price_map base quote = none) ∧
    (∀ (pair_info : List ((Cp × Cp) × Cp × Bool))
        (price_map : List (Cp × Option ℚ)) (bq : Cp × Cp) (symbol : Cp)
        (r : ℚ) (pairs : List (Cp × Cp)),
      alookup pair_info (lowerStr bq.1, lowerStr bq.2)
        = some (symbol, true) →
      (alookup price_map (cp "USDTUSD")).getD none = some r →
      1/50 < |r - 1| →
      binanceBatchValue pair_info price_map bq = none ∧
      (bq ∈ pairs →
        (bq, (none : Option ℚ)) ∈ binanceFetchBatch pair_info price_map
          pairs)) := by
  have hdep : ∀ r : ℚ, 1/50 < |r - 1| → is_depeg r = true := by
    intro r h
    simp only [is_depeg, decide_eq_true_eq]
    exact h
  constructor
  · intro pair_info price_map base quote symbol r hinfo hrate hr
    unfold binanceFetch
    rw [hinfo]
    dsimp only
    rw [hrate]
    rcases hp : (alookup price_map symbol).getD none with _ | p
    · rfl
    · dsimp only
      rw [hdep r hr]
      rfl
  · intro pair_info price_map bq symbol r pairs hinfo hrate hr
    have hbr : batchUsdtRate price_map = none := by
      unfold batchUsdtRate
      rw [hrate]
      dsimp only
      rw [hdep r hr]
      rfl
    have hval : binanceBatchValue pair_info price_map bq = none := by
      unfold binanceBatchValue
      rw [hinfo]
      dsimp only
      rcases hp : (alookup price_map symbol).getD none with _ | p
      · rfl
      · dsimp only
        rw [hbr]
        rfl
    refine ⟨hval, fun hmem => ?_⟩
    unfold binanceFetchBatch
    exact List.mem_map.mpr ⟨bq, hmem, by rw [hval]⟩

theorem c9_depeg_guard_witness :
    binanceFetch pairInfoEx priceMapEx (cp "rose") (cp "usd") = none ∧
    binanceBatchValue pairInfoEx priceMapEx (cp "rose", cp "usd")
      = none :=
  ⟨c9_depeg_guard.1 pairInfoEx priceMapEx (cp "rose") (cp "usd")
      (cp "ROSEUSDT") (103/100) (by decide)
      (by simp +decide [priceMapEx, alookup])
      (by norm_num [abs_of_nonneg]),
   (c9_depeg_guard.2 pairInfoEx priceMapEx (cp "rose", cp "usd")
      (cp "ROSEUSDT") (103/100) [] (by decide)
      (by simp +decide [priceMapEx, alookup])
      (by norm_num [abs_of_nonneg])).1⟩
